import Mathlib

/-!
Verification of the GenAI defect-management retrieval engine
(DefectPortal/modules/genai): vector store, defect similarity search,
document chunking and search, and resolution/root-cause inference.

Python floats are modelled as real numbers, Python strings as Lean strings,
and pandas DataFrame rows as association lists from column name to the
stringified cell value.  Disk persistence and logging are side effects that
do not influence the returned values and are omitted.  The external
sentence-transformer model is a parameter (a function from text to vector).
-/

namespace GenAI

/-- Substring test on character lists: true when pat occurs contiguously. -/
def hasSubList (pat : List Char) : List Char → Bool
  | [] => pat.isEmpty
  | l@(_ :: rest) => pat.isPrefixOf l || hasSubList pat rest

/-- Python's membership test on strings, as in kw in status. -/
def strContains (s pat : String) : Bool :=
  hasSubList pat.data s.data

/-- str.lower(), character by character. -/
def strLower (s : String) : String :=
  String.mk (s.data.map Char.toLower)

/-- str.strip(): drop whitespace from both ends. -/
def strStrip (s : String) : String :=
  String.mk
    (((s.data.dropWhile Char.isWhitespace).reverse.dropWhile
      Char.isWhitespace).reverse)

/-- A pandas row / Python dict after str() conversion: association list from
column name to cell text.  rowGetD models dict.get(key, default) combined
with str(): the first binding wins, as in Python where a later assignment
is modelled by prepending. -/
def Row := List (String × String)

/-- dict.get(k, d) on a row. -/
def rowGetD (r : Row) (k d : String) : String :=
  match List.lookup k r with
  | some v => v
  | none => d

/-- Accumulator pass behind pySplit: walk the characters, gathering the
current word reversed, emitting it at each whitespace boundary. -/
def wordsAux : List Char → List Char → List String
  | [], acc => if acc.isEmpty then [] else [String.mk acc.reverse]
  | c :: cs, acc =>
    if c.isWhitespace then
      (if acc.isEmpty then [] else [String.mk acc.reverse]) ++ wordsAux cs []
    else wordsAux cs (c :: acc)

/-- Python words = text.split(): split on whitespace runs, no empty tokens. -/
def pySplit (text : String) : List String :=
  wordsAux text.data []

/-- Python round-half-to-even of a rational to an integer (builtin round). -/
def pyRound (q : ℚ) : ℤ :=
  let f := ⌊q⌋
  if q - f < 1/2 then f
  else if 1/2 < q - f then f + 1
  else if f % 2 = 0 then f else f + 1

/-- Python round(x) on a real number, round-half-to-even. -/
noncomputable def pyRoundR (x : ℝ) : ℤ :=
  let f := ⌊x⌋
  if x - f < 1/2 then f
  else if 1/2 < x - f then f + 1
  else if f % 2 = 0 then f else f + 1

/-- Python round(x, 1): one decimal digit, half to even. -/
noncomputable def pyRound1 (x : ℝ) : ℝ :=
  (pyRoundR (x * 10) : ℝ) / 10

/-! ## Vectors and cosine similarity (vector_store.py lines 188-197) -/

/-- np.dot of two vectors given as lists (sum of componentwise products). -/
def dot (v w : List ℝ) : ℝ :=
  (List.zipWith (fun a b => a * b) v w).sum

/-- np.linalg.norm: Euclidean norm. -/
noncomputable def vnorm (v : List ℝ) : ℝ :=
  Real.sqrt (dot v v)

/-- VectorStore._cosine_similarity: dot / (norm1 * norm2) with the
zero-norm guard returning 0.0. -/
noncomputable def cosine_similarity (v1 v2 : List ℝ) : ℝ :=
  if vnorm v1 = 0 ∨ vnorm v2 = 0 then 0
  else dot v1 v2 / (vnorm v1 * vnorm v2)

/-! ## Store data model (vector_store.py) -/

/-- Metadata stored per defect by VectorStore.add_defects. -/
structure DefectMetadata where
  issue_key : String
  summary : String
  status : String
  priority : String
  osf_wave : String
  osf_system : String
  resolution : String
  fix_description : String
  source : String
deriving DecidableEq

/-- Metadata stored per document chunk by VectorStore.add_documents. -/
structure DocMetadata where
  filename : String
  filepath : String
  «section» : String
  page : String
  chunk_index : String
deriving DecidableEq

/-- A result dict of VectorStore.search_similar_defects.  The similarity
field is the percentage round(sim * 100, 1) built at lines 232-240. -/
structure DefectResult where
  issue_key : String
  similarity : ℝ
  metadata : DefectMetadata
  document : String

/-- A result dict of VectorStore.search_documents (lines 277-285). -/
structure DocResult where
  id : String
  similarity : ℝ
  content : String
  metadata : DocMetadata

/-- In-memory state of VectorStore: the eight parallel lists initialised
in VectorStore.init.  Disk persistence is omitted. -/
structure VectorStore where
  defect_ids : List String
  defect_embeddings : List (List ℝ)
  defect_metadata : List DefectMetadata
  defect_documents : List String
  document_ids : List String
  document_embeddings : List (List ℝ)
  document_metadata : List DocMetadata
  document_texts : List String

/-- A store with both corpora empty. -/
def emptyStore : VectorStore :=
  ⟨[], [], [], [], [], [], [], []⟩

/-! ## Similarity search pipeline (vector_store.py lines 199-287) -/

/-- The enumerate-compute-filter loop shared by both search methods:
pairs (index, cosine similarity) for the stored vectors whose similarity
passes the threshold. -/
noncomputable def simsOf (embs : List (List ℝ)) (q : List ℝ) (minSim : ℝ) :
    List (ℕ × ℝ) :=
  (embs.enum.map (fun p => (p.1, cosine_similarity q p.2))).filter
    (fun p => decide (minSim ≤ p.2))

/-- One step of a stable descending insertion: an element is placed before
the first strictly smaller similarity, so equal similarities keep their
original relative order, as Python's stable list.sort(reverse=True) does. -/
noncomputable def insertDesc (p : ℕ × ℝ) : List (ℕ × ℝ) → List (ℕ × ℝ)
  | [] => [p]
  | q :: qs => if q.2 < p.2 then p :: q :: qs else q :: insertDesc p qs

/-- similarities.sort(key=lambda x: x[1], reverse=True): stable descending
sort by similarity. -/
noncomputable def sortDesc (l : List (ℕ × ℝ)) : List (ℕ × ℝ) :=
  l.foldl (fun acc p => insertDesc p acc) []

/-- Result-dict construction of search_similar_defects (lines 234-240):
similarity is round(sim * 100, 1).  List indexing is modelled totally
with getD; the source always indexes in range because the four lists are
built in parallel. -/
noncomputable def buildDefectResult (store : VectorStore) (p : ℕ × ℝ) :
    DefectResult :=
  ⟨store.defect_ids.getD p.1 "", pyRound1 (p.2 * 100),
   store.defect_metadata.getD p.1 ⟨"", "", "", "", "", "", "", "", ""⟩,
   store.defect_documents.getD p.1 ""⟩

/-- Result-dict construction of search_documents (lines 279-285). -/
noncomputable def buildDocResult (store : VectorStore) (p : ℕ × ℝ) :
    DocResult :=
  ⟨store.document_ids.getD p.1 "", pyRound1 (p.2 * 100),
   store.document_texts.getD p.1 "",
   store.document_metadata.getD p.1 ⟨"", "", "", "", ""⟩⟩

/-- VectorStore.search_similar_defects (lines 199-242). -/
noncomputable def VectorStore.search_similar_defects (store : VectorStore)
    (query_embedding : List ℝ) (n_results : ℕ) (min_similarity : ℝ) :
    List DefectResult :=
  if store.defect_embeddings.isEmpty then []
  else
    ((sortDesc (simsOf store.defect_embeddings query_embedding
      min_similarity)).take n_results).map (buildDefectResult store)

/-- VectorStore.search_documents (lines 244-287). -/
noncomputable def VectorStore.search_documents (store : VectorStore)
    (query_embedding : List ℝ) (n_results : ℕ) (min_similarity : ℝ) :
    List DocResult :=
  if store.document_embeddings.isEmpty then []
  else
    ((sortDesc (simsOf store.document_embeddings query_embedding
      min_similarity)).take n_results).map (buildDocResult store)

/-! ## Store mutation (vector_store.py lines 108-186, 296-312) -/

/-- Issue key derived at line 126: str(defect.get('Issue key', 'defect_i')). -/
def defectIssueKey (i : ℕ) (d : Row) : String :=
  rowGetD d "Issue key" (s!"defect_{i}")

/-- Document text built at lines 132-133, truncated to 5000 characters. -/
def defectDocText (d : Row) : String :=
  (rowGetD d "Summary" "" ++ " " ++ rowGetD d "Description" "").take 5000

/-- Metadata dict built at lines 136-146. -/
def defectMetadataOf (i : ℕ) (d : Row) : DefectMetadata :=
  ⟨defectIssueKey i d, (rowGetD d "Summary" "").take 500,
   rowGetD d "Status" "", rowGetD d "Priority" "",
   rowGetD d "OSF-Wave" "", rowGetD d "OSF-System" "",
   rowGetD d "Resolution" "",
   (rowGetD d "Custom field (OSF-Fix Description)" "").take 1000,
   rowGetD d "source" "unknown"⟩

/-- VectorStore.add_defects: a replace, not an upsert — the four defect
lists are reset and rebuilt, one entry per input row, unless either input
list is empty, in which case the call returns with no mutation. -/
def VectorStore.add_defects (store : VectorStore) (defects : List Row)
    (embeddings : List (List ℝ)) : VectorStore :=
  if defects.isEmpty || embeddings.isEmpty then store
  else
    { store with
      defect_ids := defects.enum.map (fun p => defectIssueKey p.1 p.2)
      defect_embeddings := defects.enum.map (fun p => embeddings.getD p.1 [])
      defect_metadata := defects.enum.map (fun p => defectMetadataOf p.1 p.2)
      defect_documents := defects.map defectDocText }

/-- Chunk id derived at line 170: doc.get('id', 'doc_i'). -/
def documentChunkId (i : ℕ) (d : Row) : String :=
  rowGetD d "id" (s!"doc_{i}")

/-- Metadata dict built at lines 176-182. -/
def docMetadataOf (i : ℕ) (d : Row) : DocMetadata :=
  ⟨rowGetD d "filename" "", rowGetD d "filepath" "",
   rowGetD d "section" "", rowGetD d "page" "",
   rowGetD d "chunk_index" (toString i)⟩

/-- VectorStore.add_documents (lines 152-186), same replace shape as
add_defects. -/
def VectorStore.add_documents (store : VectorStore) (documents : List Row)
    (embeddings : List (List ℝ)) : VectorStore :=
  if documents.isEmpty || embeddings.isEmpty then store
  else
    { store with
      document_ids := documents.enum.map (fun p => documentChunkId p.1 p.2)
      document_embeddings :=
        documents.enum.map (fun p => embeddings.getD p.1 [])
      document_metadata := documents.enum.map (fun p => docMetadataOf p.1 p.2)
      document_texts :=
        documents.map (fun d => (rowGetD d "content" "").take 5000) }

/-- VectorStore.clear_defects (lines 296-303). -/
def VectorStore.clear_defects (store : VectorStore) : VectorStore :=
  { store with defect_ids := [], defect_embeddings := []
               defect_metadata := [], defect_documents := [] }

/-! ## Embedding service (embedding_service.py lines 117-138)

The sentence-transformer model itself is external; any function that maps a
batch of texts to a batch of vectors stands for model.encode. -/

/-- EmbeddingService.create_defect_text: join the five fields that are
non-empty, non-blank and not the string nan, each stripped. -/
def create_defect_text (defect : Row) : String :=
  let fields := [rowGetD defect "Summary" "",
                 rowGetD defect "Description" "",
                 rowGetD defect "Custom field (OSF-Fix Description)" "",
                 rowGetD defect "OSF-System" "",
                 rowGetD defect "Comment" ""]
  " ".intercalate
    ((fields.filter (fun f =>
        f ≠ "" && strStrip f ≠ "" && strLower f ≠ "nan")).map strStrip)

/-! ## Defect similarity service (defect_similarity.py) -/

/-- The batch loop of index_defects (lines 89-96): texts are embedded in
slices of 256 and the vectors concatenated. -/
def batched (embedB : List String → List (List ℝ)) :
    List String → List (List ℝ)
  | [] => []
  | x :: xs =>
    embedB ((x :: xs).take 256) ++ batched embedB ((x :: xs).drop 256)
termination_by l => l.length
decreasing_by simp [List.length_drop]; omega

/-- DefectSimilaritySearch.index_defects (lines 30-101).  The skip
condition at line 51 compares the cached count against
total * 0.95 (modelled exactly as 19/20); rows of the two frames are
tagged with their source before texts and embeddings are produced; an
empty combined row set returns before any mutation. -/
def index_defects (embedB : List String → List (List ℝ))
    (store : VectorStore) (defects_acc defects_sit : List Row)
    (force_reindex : Bool) : VectorStore :=
  let total := defects_acc.length + defects_sit.length
  let cached := store.defect_ids.length
  if force_reindex = false ∧ 0 < cached ∧
      (total : ℚ) * (19/20) ≤ (cached : ℚ) then store
  else
    let all_defects := defects_acc.map (fun r => ("source", "ACC") :: r) ++
      defects_sit.map (fun r => ("source", "SIT") :: r)
    if all_defects.isEmpty then store
    else
      let store1 := if 0 < cached then store.clear_defects else store
      let all_embeddings := batched embedB (all_defects.map create_defect_text)
      store1.add_defects all_defects all_embeddings

/-- DefectSimilaritySearch.find_similar (lines 103-138): embed the
record's composite text, search with one extra slot when excluding self,
then drop results whose issue key equals the query's and truncate. -/
noncomputable def find_similar (embed : String → List ℝ)
    (store : VectorStore) (defect : Row) (n_results : ℕ)
    (min_similarity : ℝ) (exclude_self : Bool) : List DefectResult :=
  let query_embedding := embed (create_defect_text defect)
  let similar := store.search_similar_defects query_embedding
    (if exclude_self then n_results + 1 else n_results) min_similarity
  if exclude_self then
    (similar.filter
      (fun s => !(s.issue_key == rowGetD defect "Issue key" ""))).take
      n_results
  else similar

/-- The keyword list of get_resolved_similar, line 199 — note it has five
entries, without complete, and the loop below it never looks at the fix
description. -/
def resolvedKeywordsNarrow : List String :=
  ["closed", "resolved", "done", "fixed", "verified"]

/-- The per-candidate test of the loop at lines 202-208. -/
def isResolvedNarrow (s : DefectResult) : Bool :=
  resolvedKeywordsNarrow.any
      (fun kw => strContains (strLower s.metadata.status) kw) ||
    resolvedKeywordsNarrow.any
      (fun kw => strContains (strLower s.metadata.resolution) kw)

/-- The collection loop of get_resolved_similar: append each candidate
passing the test, and break as soon as n results are collected (the break
is checked only after an append, so with n = 0 the loop still returns the
first match, as the source does). -/
def collectLoop (n : ℕ) (resolved : List DefectResult) :
    List DefectResult → List DefectResult
  | [] => resolved
  | s :: ss =>
    if isResolvedNarrow s then
      if n ≤ (resolved ++ [s]).length then resolved ++ [s]
      else collectLoop n (resolved ++ [s]) ss
    else collectLoop n resolved ss

/-- DefectSimilaritySearch.get_resolved_similar (lines 172-210): request
three times the wanted count, then collect candidates passing the
status/resolution keyword test. -/
noncomputable def get_resolved_similar (embed : String → List ℝ)
    (store : VectorStore) (defect : Row) (n_results : ℕ)
    (min_similarity : ℝ) : List DefectResult :=
  let similar :=
    find_similar embed store defect (n_results * 3) min_similarity true
  collectLoop n_results [] similar

/-! ## Document chunking (document_search.py lines 178-204)

Python truthiness of a stripped string is modelled at the token level:
str.split() yields only nonempty whitespace-free tokens, so the join of a
token window strips to nonempty exactly when the window is nonempty, and a
whole text strips to nonempty exactly when it splits to at least one word. -/

/-- The while loop of DocumentSearch._split_text: take the next window of
chunk_size words, keep it when nonempty, advance by step words.  With
step = 0 (overlap at least chunk size) the source never advances; that
case is unreachable for the fixed 500/50 policy and modelled as stopping. -/
def chunkLoop (chunk_size : ℕ) : ℕ → List String → List String
  | _, [] => []
  | 0, _ :: _ => []
  | step + 1, w :: ws =>
    let window := (w :: ws).take chunk_size
    (if window.isEmpty then [] else [" ".intercalate window]) ++
      chunkLoop chunk_size (step + 1) ((w :: ws).drop (step + 1))
termination_by _ l => l.length
decreasing_by simp [List.length_drop]; omega

/-- DocumentSearch._split_text (lines 178-204). -/
def split_text (text : String) (chunk_size overlap : ℕ) : List String :=
  let words := pySplit text
  if words.length ≤ chunk_size then
    if words.isEmpty then [] else [text]
  else chunkLoop chunk_size (chunk_size - overlap) words

/-! ## Document search (document_search.py lines 225-288) -/

/-- The per-result key of _deduplicate_results_by_document (line 241):
filename, else filepath, else the chunk id. -/
def docKey (r : DocResult) : String :=
  if r.metadata.filename ≠ "" then r.metadata.filename
  else if r.metadata.filepath ≠ "" then r.metadata.filepath
  else r.id

/-- The loop of _deduplicate_results_by_document, with the remaining
budget counting down from n_results: stop when the budget is exhausted,
skip results whose key was already seen. -/
def dedupGo : ℕ → List String → List DocResult → List DocResult
  | _, _, [] => []
  | k, seen, r :: rs =>
    if k = 0 then []
    else if seen.contains (docKey r) then dedupGo k seen rs
    else r :: dedupGo (k - 1) (docKey r :: seen) rs

/-- DocumentSearch._deduplicate_results_by_document (lines 225-246). -/
def dedupByDocument (results : List DocResult) (n_results : ℕ) :
    List DocResult :=
  dedupGo n_results [] results

/-- Stop-words excluded from keyword-fallback query tokens. -/
def stopWords : List String :=
  ["the", "and", "for", "was", "with", "that", "this", "from", "are",
   "were", "been", "have", "has", "not", "when", "while", "where",
   "will", "into", "about", "upon", "over", "under"]

/-- Modelled from the spec: VectorStore.search_documents_by_keywords is
called by DocumentSearch.search (document_search.py line 283) but is
missing from the source tree.  Per the spec it is a keyword-containment
scan over chunk text using query tokens above a minimum length, excluding
common stop-words.  Tokens shorter than four characters are dropped, the
scan is case-insensitive, and matching chunks are returned in insertion
order, truncated to n_results, with similarity 0 (the spec fixes no score
for keyword hits). -/
def search_documents_by_keywords (store : VectorStore) (query : String)
    (n_results : ℕ) : List DocResult :=
  let tokens := (pySplit (strLower query)).filter
    (fun t => decide (3 < t.length) && !stopWords.contains t)
  (((List.range store.document_texts.length).filter (fun i =>
      tokens.any (fun t =>
        strContains (strLower (store.document_texts.getD i "")) t))).map
    (fun i =>
      (⟨store.document_ids.getD i "", 0, store.document_texts.getD i "",
        store.document_metadata.getD i ⟨"", "", "", "", ""⟩⟩ :
        DocResult))).take n_results

/-- DocumentSearch.search (lines 248-288): empty or blank queries return
empty; otherwise semantic search, then the keyword fallback when it found
nothing, then deduplication by document. -/
noncomputable def document_search (embed : String → List ℝ)
    (store : VectorStore) (query : String) (n_results : ℕ)
    (min_similarity : ℝ) : List DocResult :=
  if (pySplit query).isEmpty then []
  else
    let results := store.search_documents (embed query) n_results
      min_similarity
    let results' := if results.isEmpty then
        search_documents_by_keywords store query n_results
      else results
    dedupByDocument results' n_results

/-! ## Resolution suggester (resolution_suggester.py) -/

/-- The keyword list of ResolutionSuggester._is_resolved (line 101) —
six entries, with complete. -/
def resolved_keywords : List String :=
  ["closed", "resolved", "done", "fixed", "verified", "complete"]

/-- ResolutionSuggester._is_resolved (lines 94-107): status or resolution
contains a resolved keyword, or the fix description is nontrivial (not
empty, not nan, longer than ten characters). -/
def is_resolved (defect : DefectResult) : Bool :=
  let status := strLower defect.metadata.status
  let resolution := strLower defect.metadata.resolution
  let fix_desc := strLower defect.metadata.fix_description
  resolved_keywords.any (fun kw => strContains status kw) ||
    resolved_keywords.any (fun kw => strContains resolution kw) ||
    (fix_desc ≠ "" && fix_desc ≠ "nan" && decide (10 < fix_desc.length))

/-- The fixed keyword-to-cause taxonomy of _analyze_root_causes
(lines 163-177), in source order. -/
def cause_keywords : List (String × String) :=
  [("timeout", "Timeout/Performance Issues"),
   ("validation", "Validation Logic Errors"),
   ("null", "Null Pointer/Empty Data"),
   ("database", "Database Connection/Query Issues"),
   ("api", "API Integration Issues"),
   ("configuration", "Configuration Problems"),
   ("authentication", "Authentication/Authorization Issues"),
   ("permission", "Permission/Authorization Issues"),
   ("memory", "Memory/Resource Issues"),
   ("network", "Network Connectivity Issues"),
   ("data", "Data Transformation/Format Issues"),
   ("error", "Error/Exception Handling"),
   ("integration", "Integration/Service Issues")]

/-- The combined lower-cased summary, fix description and resolution text
of one candidate (line 183). -/
def candidateContent (d : DefectResult) : String :=
  strLower (d.metadata.summary ++ " " ++ d.metadata.fix_description ++
    " " ++ d.metadata.resolution)

/-- One increment of a collections.Counter kept as an association list in
insertion order. -/
def bumpCount : List (String × ℕ) → String → List (String × ℕ)
  | [], k => [(k, 1)]
  | (k', c) :: rest, k =>
    if k' = k then (k', c + 1) :: rest else (k', c) :: bumpCount rest k

/-- The double counting loop of _analyze_root_causes (lines 179-187):
for each candidate, each taxonomy keyword contained in its content bumps
that keyword's cause. -/
def causeCounts (cands : List DefectResult) : List (String × ℕ) :=
  cands.foldl (fun counter d =>
    cause_keywords.foldl (fun ctr p =>
      if strContains (candidateContent d) p.1 then bumpCount ctr p.2
      else ctr) counter) []

/-- Counter.most_common(1): the first entry holding the maximal count
(Python's sort is stable, so insertion order breaks ties). -/
def mostCommon1 (counts : List (String × ℕ)) : Option (String × ℕ) :=
  counts.foldl (fun best p =>
    match best with
    | none => some p
    | some b => if b.2 < p.2 then some p else some b) none

/-- A root-cause entry: cause text, percentage and supporting count. -/
structure RootCause where
  cause : String
  percentage : ℤ
  count : ℕ
deriving DecidableEq

/-- Characters of a string before the first occurrence of a separator. -/
def beforeFirst (sep : List Char) : List Char → List Char
  | [] => []
  | c :: rest =>
    if sep.isPrefixOf (c :: rest) then [] else c :: beforeFirst sep rest

/-- First-sentence extraction of branch (2) of _analyze_root_causes
(lines 205-210): newlines become spaces, the text is cut at the first
sentence separator, and truncated to 220 characters with an ellipsis. -/
def firstSentenceOf (fix_desc : String) : String :=
  let flat := strStrip (String.mk (fix_desc.data.map
    (fun c => if c = '\n' then ' ' else c)))
  let cut :=
    if strContains flat ". " then
      strStrip (String.mk (beforeFirst ['.', ' '] flat.data)) ++ "."
    else if strContains flat "; " then
      strStrip (String.mk (beforeFirst [';', ' '] flat.data))
    else flat
  if 220 < cut.length then cut.take 220 ++ "…" else cut

/-- Branches (2)-(4) of _analyze_root_causes (lines 196-222): walk the
candidates for the first usable fix description, else the first usable
resolution, else the sentinel. -/
def fallbackCause : List DefectResult → RootCause
  | [] => ⟨"Investigation needed", 100, 0⟩
  | d :: ds =>
    let fix_desc := strStrip d.metadata.fix_description
    let resolution := strStrip d.metadata.resolution
    let issue_key := d.metadata.issue_key
    if fix_desc ≠ "" && !(["nan", "none", ""].contains (strLower fix_desc))
        && decide (20 < fix_desc.length) then
      ⟨(if issue_key ≠ "" then
          "From similar defect " ++ issue_key ++ ": " ++
            firstSentenceOf fix_desc
        else firstSentenceOf fix_desc), 100, 1⟩
    else if resolution ≠ "" &&
        !(["nan", "none", "unresolved", "fixed", "done", ""].contains
          (strLower resolution)) && decide (15 < resolution.length) then
      let cause_text := if 200 < resolution.length then
          resolution.take 200 ++ "…" else resolution
      ⟨(if issue_key ≠ "" then
          "From similar defect " ++ issue_key ++ ": " ++ cause_text
        else cause_text), 100, 1⟩
    else fallbackCause ds

/-- ResolutionSuggester._analyze_root_causes (lines 156-222). -/
def analyze_root_causes (resolved_defects : List DefectResult) :
    List RootCause :=
  let counts := causeCounts resolved_defects
  let total := (counts.map Prod.snd).sum
  if 0 < total then
    match mostCommon1 counts with
    | some top =>
      [⟨top.1,
        min (pyRound ((top.2 : ℚ) / (resolved_defects.length : ℚ) * 100))
          100, top.2⟩]
    | none => [fallbackCause resolved_defects]
  else [fallbackCause resolved_defects]

/-! ## Vocabulary used by the verification statements -/

/-- Result order produced by the stable descending sort: strictly larger
similarity first, ties in insertion (index) order. -/
def rankLt (a b : ℕ × ℝ) : Prop :=
  b.2 < a.2 ∨ (a.2 = b.2 ∧ a.1 < b.1)

/-- The tagged row list built by index_defects before embedding. -/
def taggedRows (defects_acc defects_sit : List Row) : List Row :=
  defects_acc.map (fun r => ("source", "ACC") :: r) ++
    defects_sit.map (fun r => ("source", "SIT") :: r)

/-- Number of candidates whose combined content contains a keyword: the
declarative reading of the counting loop. -/
def matchCount (kw : String) (cands : List DefectResult) : ℕ :=
  (cands.filter (fun d => strContains (candidateContent d) kw)).length

/-- Count held by an association-list counter (0 when absent). -/
def lookupCount (l : List (String × ℕ)) (k : String) : ℕ :=
  (l.lookup k).getD 0

/-- One inner iteration of the counting loop: all keyword bumps for a
single candidate. -/
def innerStep (d : DefectResult) (ctr : List (String × ℕ)) :
    List (String × ℕ) :=
  cause_keywords.foldl (fun ctr p =>
    if strContains (candidateContent d) p.1 then bumpCount ctr p.2
    else ctr) ctr

/-! ## Concrete data for witnesses and counterexamples -/

/-- Metadata of a stored defect whose status is Complete: resolved per
the suggester's predicate, but not per the narrower keyword list of
get_resolved_similar. -/
def cexMeta : DefectMetadata :=
  ⟨"D1", "gateway summary", "Complete", "High", "W1", "SysA", "",
   "restarted the gateway service", "ACC"⟩

/-- A store holding one defect with the unit embedding [1, 0]. -/
def cexStore : VectorStore :=
  ⟨["D1"], [[(1 : ℝ), 0]], [cexMeta], ["gateway doc"], [], [], [], []⟩

/-- The one defect result the concrete store returns for the query
[1, 0]. -/
def cexResult : DefectResult :=
  ⟨"D1", 100, cexMeta, "gateway doc"⟩

/-- The 1801-character text w w ... w holding 901 words. -/
def t901 : String :=
  String.mk ((List.replicate 900 ['w', ' ']).flatten ++ ['w'])

/-- One resolved candidate with the given summary, for the C7 witness. -/
def wCand (s : String) : DefectResult :=
  ⟨"K1", 90, ⟨"K1", s, "Closed", "", "", "", "", "", ""⟩, ""⟩

/-- Three resolved candidates mentioning timeout twice, validation once. -/
def wCands : List DefectResult :=
  [wCand "timeout alpha", wCand "timeout beta", wCand "validation gamma"]

/-! ## Basic facts about dot products and cosine similarity -/

theorem dot_self_nonneg : ∀ v : List ℝ, 0 ≤ dot v v
  | [] => le_refl 0
  | x :: xs => by
    have h := dot_self_nonneg xs
    simp only [dot, List.zipWith_cons_cons, List.sum_cons] at *
    nlinarith [sq_nonneg x]

theorem dot_self_zero_of_zero : ∀ v : List ℝ, (∀ x ∈ v, x = 0) →
    dot v v = 0
  | [], _ => rfl
  | x :: xs, h => by
    have hx : x = 0 := h x (by simp)
    have hxs := dot_self_zero_of_zero xs (fun y hy => h y (by simp [hy]))
    simp only [dot, List.zipWith_cons_cons, List.sum_cons] at *
    rw [hx, hxs]; ring

theorem vnorm_zero_of_zero (v : List ℝ) (h : ∀ x ∈ v, x = 0) :
    vnorm v = 0 := by
  rw [vnorm, dot_self_zero_of_zero v h, Real.sqrt_zero]

theorem vnorm_pos_of_dot_ne (u : List ℝ) (hu : dot u u ≠ 0) :
    0 < vnorm u :=
  Real.sqrt_pos.mpr (lt_of_le_of_ne (dot_self_nonneg u) (Ne.symm hu))

theorem cosine_self_eq_one (u : List ℝ) (hu : dot u u ≠ 0) :
    cosine_similarity u u = 1 := by
  have hpos := vnorm_pos_of_dot_ne u hu
  rw [cosine_similarity, if_neg (by push_neg; exact ⟨ne_of_gt hpos, ne_of_gt hpos⟩)]
  rw [vnorm, Real.mul_self_sqrt (dot_self_nonneg u)]
  exact div_self hu

/-- C10: the cosine-similarity function of the vector store returns 0.0
whenever either input vector is the zero vector, and returns 1.0 (within
1e-6, in fact exactly) for any two identical non-zero vectors. -/
theorem cosine_similarity_zero_and_self (v w u : List ℝ)
    (hz : (∀ x ∈ v, x = 0) ∨ (∀ x ∈ w, x = 0)) (hu : dot u u ≠ 0) :
    cosine_similarity v w = 0 ∧
      |cosine_similarity u u - 1| ≤ 1 / 1000000 := by
  constructor
  · rw [cosine_similarity, if_pos]
    rcases hz with h | h
    · exact Or.inl (vnorm_zero_of_zero v h)
    · exact Or.inr (vnorm_zero_of_zero w h)
  · rw [cosine_self_eq_one u hu]
    norm_num

/-- Witness for C10 at the zero vector [0], the vector [5] and the
non-zero vector [1, 0]. -/
theorem cosine_similarity_zero_and_self_witness :
    ((∀ x ∈ [(0 : ℝ)], x = 0) ∨ (∀ x ∈ [(5 : ℝ)], x = 0)) ∧
      dot [(1 : ℝ), 0] [(1 : ℝ), 0] ≠ 0 ∧
      (cosine_similarity [(0 : ℝ)] [(5 : ℝ)] = 0 ∧
        |cosine_similarity [(1 : ℝ), 0] [(1 : ℝ), 0] - 1| ≤ 1 / 1000000) := by
  have hz : (∀ x ∈ [(0 : ℝ)], x = 0) ∨ (∀ x ∈ [(5 : ℝ)], x = 0) :=
    Or.inl (by simp)
  have hu : dot [(1 : ℝ), 0] [(1 : ℝ), 0] ≠ 0 := by
    simp only [dot, List.zipWith_cons_cons, List.zipWith_nil_right,
      List.sum_cons, List.sum_nil]
    norm_num
  exact ⟨hz, hu, cosine_similarity_zero_and_self _ _ _ hz hu⟩

/-! ## The sorted search pipeline -/

theorem mem_insertDesc (p q : ℕ × ℝ) :
    ∀ l : List (ℕ × ℝ), q ∈ insertDesc p l ↔ q = p ∨ q ∈ l
  | [] => by simp [insertDesc]
  | r :: rs => by
    by_cases h : r.2 < p.2
    · simp [insertDesc, if_pos h]
    · simp only [insertDesc, if_neg h, List.mem_cons, mem_insertDesc p q rs]
      tauto

theorem insertDesc_pairwise (p : ℕ × ℝ) :
    ∀ l : List (ℕ × ℝ), l.Pairwise rankLt → (∀ q ∈ l, q.1 < p.1) →
      (insertDesc p l).Pairwise rankLt
  | [], _, _ => List.pairwise_singleton _ _
  | r :: rs, hl, hfst => by
    rcases List.pairwise_cons.mp hl with ⟨hr, hrs⟩
    by_cases h : r.2 < p.2
    · rw [insertDesc, if_pos h]
      refine List.pairwise_cons.mpr ⟨?_, hl⟩
      intro x hx
      rcases List.mem_cons.mp hx with rfl | hx'
      · exact Or.inl h
      · rcases hr x hx' with h2 | ⟨h2, _⟩
        · exact Or.inl (h2.trans h)
        · exact Or.inl (h2 ▸ h)
    · rw [insertDesc, if_neg h]
      refine List.pairwise_cons.mpr ⟨?_, ?_⟩
      · intro x hx
        rcases (mem_insertDesc p x rs).mp hx with rfl | hx'
        · rcases lt_or_eq_of_le (le_of_not_lt h) with h2 | h2
          · exact Or.inl h2
          · exact Or.inr ⟨h2.symm, hfst r (by simp)⟩
        · exact hr x hx'
      · exact insertDesc_pairwise p rs hrs
          (fun q hq => hfst q (List.mem_cons_of_mem r hq))

theorem mem_foldl_insert (x : ℕ × ℝ) :
    ∀ (l acc : List (ℕ × ℝ)),
      (x ∈ l.foldl (fun acc p => insertDesc p acc) acc ↔ x ∈ acc ∨ x ∈ l)
  | [], acc => by simp
  | b :: bs, acc => by
    simp only [List.foldl_cons, mem_foldl_insert x bs (insertDesc b acc),
      mem_insertDesc b x acc, List.mem_cons]
    tauto

theorem foldl_insert_pairwise :
    ∀ (l acc : List (ℕ × ℝ)), acc.Pairwise rankLt →
      (∀ a ∈ acc, ∀ b ∈ l, a.1 < b.1) →
      l.Pairwise (fun a b => a.1 < b.1) →
      (l.foldl (fun acc p => insertDesc p acc) acc).Pairwise rankLt
  | [], acc, hacc, _, _ => hacc
  | b :: bs, acc, hacc, hcross, hl => by
    rcases List.pairwise_cons.mp hl with ⟨hb, hbs⟩
    refine foldl_insert_pairwise bs (insertDesc b acc) ?_ ?_ hbs
    · exact insertDesc_pairwise b acc hacc
        (fun q hq => hcross q hq b (by simp))
    · intro a ha c hc
      rcases (mem_insertDesc b a acc).mp ha with rfl | ha'
      · exact hb c hc
      · exact hcross a ha' c (List.mem_cons_of_mem b hc)

theorem mem_sortDesc (x : ℕ × ℝ) (l : List (ℕ × ℝ)) :
    x ∈ sortDesc l ↔ x ∈ l := by
  rw [sortDesc, mem_foldl_insert]
  simp

theorem sortDesc_pairwise (l : List (ℕ × ℝ))
    (hl : l.Pairwise (fun a b => a.1 < b.1)) :
    (sortDesc l).Pairwise rankLt :=
  foldl_insert_pairwise l [] (List.Pairwise.nil) (by simp) hl

theorem simsOf_pairwise_fst (embs : List (List ℝ)) (q : List ℝ)
    (minSim : ℝ) :
    (simsOf embs q minSim).Pairwise (fun a b => a.1 < b.1) := by
  apply List.Pairwise.filter
  rw [List.pairwise_map]
  have h1 : (embs.enum.map Prod.fst).Pairwise (· < ·) := by
    rw [List.enum_map_fst]
    exact List.pairwise_lt_range _
  rw [List.pairwise_map] at h1
  exact h1

theorem simsOf_min (embs : List (List ℝ)) (q : List ℝ) (minSim : ℝ)
    (p : ℕ × ℝ) (hp : p ∈ simsOf embs q minSim) : minSim ≤ p.2 := by
  have := List.of_mem_filter hp
  exact of_decide_eq_true this

theorem search_similar_defects_eq (store : VectorStore) (q : List ℝ)
    (n : ℕ) (minSim : ℝ) :
    store.search_similar_defects q n minSim =
      ((sortDesc (simsOf store.defect_embeddings q minSim)).take n).map
        (buildDefectResult store) := by
  rw [VectorStore.search_similar_defects]
  by_cases h : store.defect_embeddings.isEmpty
  · rw [if_pos h]
    rw [List.isEmpty_iff] at h
    simp [h, simsOf, sortDesc]
  · rw [if_neg h]

theorem search_documents_eq (store : VectorStore) (q : List ℝ)
    (n : ℕ) (minSim : ℝ) :
    store.search_documents q n minSim =
      ((sortDesc (simsOf store.document_embeddings q minSim)).take n).map
        (buildDocResult store) := by
  rw [VectorStore.search_documents]
  by_cases h : store.document_embeddings.isEmpty
  · rw [if_pos h]
    rw [List.isEmpty_iff] at h
    simp [h, simsOf, sortDesc]
  · rw [if_neg h]

/-- C3: the defect search returns at most n_results results, every
retained (index, similarity) pair passes the threshold, the retained
pairs are in non-increasing similarity order with ties in insertion
(index) order, and the returned result dicts are exactly those pairs in
that order. -/
theorem search_similar_defects_spec (store : VectorStore) (q : List ℝ)
    (n : ℕ) (minSim : ℝ) :
    store.search_similar_defects q n minSim =
      ((sortDesc (simsOf store.defect_embeddings q minSim)).take n).map
        (buildDefectResult store) ∧
    (store.search_similar_defects q n minSim).length ≤ n ∧
    (∀ p ∈ (sortDesc (simsOf store.defect_embeddings q minSim)).take n,
      minSim ≤ p.2) ∧
    ((sortDesc (simsOf store.defect_embeddings q minSim)).take n).Pairwise
      rankLt := by
  refine ⟨search_similar_defects_eq store q n minSim, ?_, ?_, ?_⟩
  · rw [search_similar_defects_eq store q n minSim, List.length_map]
    exact (List.length_take_le _ _)
  · intro p hp
    exact simsOf_min _ _ _ _
      ((mem_sortDesc _ _).mp (List.mem_of_mem_take hp))
  · exact (sortDesc_pairwise _ (simsOf_pairwise_fst _ _ _)).sublist
      (List.take_sublist _ _)

/-! ## Cosine similarity is bounded by one (Cauchy-Schwarz) -/

theorem dot_sq_le : ∀ v w : List ℝ, dot v w * dot v w ≤ dot v v * dot w w
  | [], w => by simp [dot]
  | _ :: _, [] => by simp [dot]
  | x :: xs, y :: ys => by
    have IH := dot_sq_le xs ys
    have ha := dot_self_nonneg xs
    have hb := dot_self_nonneg ys
    simp only [dot, List.zipWith_cons_cons, List.sum_cons] at *
    set S := (List.zipWith (fun a b => a * b) xs ys).sum with hS
    set A := (List.zipWith (fun a b => a * b) xs xs).sum with hA
    set B := (List.zipWith (fun a b => a * b) ys ys).sum with hB
    rcases eq_or_lt_of_le hb with h0 | hpos
    · have hS0 : S = 0 := by nlinarith
      rw [hS0, ← h0]
      nlinarith [sq_nonneg (x * y)]
    · nlinarith [sq_nonneg (B * x - S * y),
        mul_nonneg (by nlinarith [sq_nonneg y] : (0:ℝ) ≤ y * y + B)
          (by nlinarith : (0:ℝ) ≤ A * B - S * S)]

theorem cosine_le_one (v w : List ℝ) : cosine_similarity v w ≤ 1 := by
  rw [cosine_similarity]
  by_cases h : vnorm v = 0 ∨ vnorm w = 0
  · rw [if_pos h]; norm_num
  · rw [if_neg h]
    push_neg at h
    have hv : 0 < vnorm v :=
      lt_of_le_of_ne (Real.sqrt_nonneg _) (Ne.symm h.1)
    have hw : 0 < vnorm w :=
      lt_of_le_of_ne (Real.sqrt_nonneg _) (Ne.symm h.2)
    rw [div_le_one (mul_pos hv hw)]
    have h2 : dot v w * dot v w ≤ (vnorm v * vnorm w) * (vnorm v * vnorm w) := by
      have hvv : vnorm v * vnorm v = dot v v := Real.mul_self_sqrt (dot_self_nonneg v)
      have hww : vnorm w * vnorm w = dot w w := Real.mul_self_sqrt (dot_self_nonneg w)
      calc dot v w * dot v w ≤ dot v v * dot w w := dot_sq_le v w
        _ = (vnorm v * vnorm w) * (vnorm v * vnorm w) := by
          rw [← hvv, ← hww]; ring
    nlinarith [mul_pos hv hw]

theorem simsOf_snd_le_one (embs : List (List ℝ)) (q : List ℝ)
    (minSim : ℝ) (p : ℕ × ℝ) (hp : p ∈ simsOf embs q minSim) :
    p.2 ≤ 1 := by
  have hp2 := List.mem_of_mem_filter hp
  rcases List.mem_map.mp hp2 with ⟨⟨i, e⟩, _, rfl⟩
  exact cosine_le_one q e

/-! ## Bounds for Python rounding -/

theorem pyRoundR_nonneg (y : ℝ) (h : 0 ≤ y) : 0 ≤ pyRoundR y := by
  have hf : (0 : ℤ) ≤ ⌊y⌋ := Int.floor_nonneg.mpr h
  rw [pyRoundR]
  split_ifs <;> omega

theorem pyRoundR_le (y : ℝ) (B : ℤ) (h : y ≤ B) : pyRoundR y ≤ B := by
  have hfB : ⌊y⌋ ≤ B := by
    have := Int.floor_le_floor h
    rwa [Int.floor_intCast] at this
  have hfy : (⌊y⌋ : ℝ) ≤ y := Int.floor_le y
  rw [pyRoundR]
  split_ifs with h1 h2 h3
  · exact hfB
  · have : (⌊y⌋ : ℝ) < (B : ℝ) := by linarith
    have : ⌊y⌋ < B := by exact_mod_cast this
    omega
  · have heq : y - ⌊y⌋ = 1/2 := le_antisymm (le_of_not_lt h2) (le_of_not_lt h1)
    have : (⌊y⌋ : ℝ) < (B : ℝ) := by linarith
    have : ⌊y⌋ < B := by exact_mod_cast this
    omega
  · have heq : y - ⌊y⌋ = 1/2 := le_antisymm (le_of_not_lt h2) (le_of_not_lt h1)
    have : (⌊y⌋ : ℝ) < (B : ℝ) := by linarith
    have : ⌊y⌋ < B := by exact_mod_cast this
    omega

theorem pyRound1_bounds (x : ℝ) (h0 : 0 ≤ x) (h1 : x ≤ 100) :
    0 ≤ pyRound1 x ∧ pyRound1 x ≤ 100 := by
  have hn : 0 ≤ pyRoundR (x * 10) := pyRoundR_nonneg _ (by linarith)
  have hl : pyRoundR (x * 10) ≤ 1000 := pyRoundR_le _ 1000 (by push_cast; linarith)
  constructor
  · rw [pyRound1]
    exact div_nonneg (by exact_mod_cast hn) (by norm_num)
  · rw [pyRound1]
    rw [div_le_iff₀ (by norm_num : (0:ℝ) < 10)]
    calc ((pyRoundR (x * 10) : ℝ)) ≤ 1000 := by exact_mod_cast hl
      _ = 100 * 10 := by norm_num

/-! ## C2: the similarity of returned results -/

theorem buildDefect_similarity_bounds (store : VectorStore) (p : ℕ × ℝ)
    (h0 : 0 ≤ p.2) (h1 : p.2 ≤ 1) :
    0 ≤ (buildDefectResult store p).similarity ∧
      (buildDefectResult store p).similarity ≤ 100 := by
  rw [buildDefectResult]
  exact pyRound1_bounds (p.2 * 100) (by linarith) (by linarith)

theorem buildDoc_similarity_bounds (store : VectorStore) (p : ℕ × ℝ)
    (h0 : 0 ≤ p.2) (h1 : p.2 ≤ 1) :
    0 ≤ (buildDocResult store p).similarity ∧
      (buildDocResult store p).similarity ≤ 100 := by
  rw [buildDocResult]
  exact pyRound1_bounds (p.2 * 100) (by linarith) (by linarith)

/-- C2 corrected: a result's similarity field holds round(sim * 100, 1),
a percentage, not a fraction; for a non-negative threshold every returned
similarity (defect or document search) lies in [0, 100], not [0, 1]. -/
theorem similarity_results_percent_bounds (store : VectorStore)
    (q : List ℝ) (n : ℕ) (minSim : ℝ) (h : 0 ≤ minSim) :
    (∀ r ∈ store.search_similar_defects q n minSim,
      0 ≤ r.similarity ∧ r.similarity ≤ 100) ∧
    (∀ r ∈ store.search_documents q n minSim,
      0 ≤ r.similarity ∧ r.similarity ≤ 100) := by
  constructor
  · intro r hr
    rw [search_similar_defects_eq] at hr
    rcases List.mem_map.mp hr with ⟨p, hp, rfl⟩
    have hmem := (mem_sortDesc _ _).mp (List.mem_of_mem_take hp)
    exact buildDefect_similarity_bounds store p
      (le_trans h (simsOf_min _ _ _ _ hmem)) (simsOf_snd_le_one _ _ _ _ hmem)
  · intro r hr
    rw [search_documents_eq] at hr
    rcases List.mem_map.mp hr with ⟨p, hp, rfl⟩
    have hmem := (mem_sortDesc _ _).mp (List.mem_of_mem_take hp)
    exact buildDoc_similarity_bounds store p
      (le_trans h (simsOf_min _ _ _ _ hmem)) (simsOf_snd_le_one _ _ _ _ hmem)

/-- Witness for the corrected C2 at threshold 0.5 on a concrete store. -/
theorem similarity_results_percent_bounds_witness :
    (0 : ℝ) ≤ 1/2 ∧
    ((∀ r ∈ emptyStore.search_similar_defects [(1:ℝ)] 3 (1/2),
      0 ≤ r.similarity ∧ r.similarity ≤ 100) ∧
    (∀ r ∈ emptyStore.search_documents [(1:ℝ)] 3 (1/2),
      0 ≤ r.similarity ∧ r.similarity ≤ 100)) :=
  ⟨by norm_num,
   similarity_results_percent_bounds emptyStore [(1:ℝ)] 3 (1/2) (by norm_num)⟩

/-! ## A concrete store evaluated end to end -/

theorem dot_e1_self : dot [(1 : ℝ), 0] [(1 : ℝ), 0] = 1 := by
  simp only [dot, List.zipWith_cons_cons, List.zipWith_nil_right,
    List.sum_cons, List.sum_nil]
  norm_num

theorem cosine_e1_self : cosine_similarity [(1 : ℝ), 0] [(1 : ℝ), 0] = 1 :=
  cosine_self_eq_one _ (by rw [dot_e1_self]; norm_num)

theorem pyRound1_one_hundred : pyRound1 ((1 : ℝ) * 100) = 100 := by
  have h1000 : (1 : ℝ) * 100 * 10 = 1000 := by norm_num
  rw [pyRound1, pyRoundR, h1000]
  have hf : ⌊(1000 : ℝ)⌋ = 1000 := by norm_num
  rw [hf]
  norm_num

theorem cexStore_search (n : ℕ) (hn : 1 ≤ n) :
    cexStore.search_similar_defects [(1 : ℝ), 0] n (1/2) = [cexResult] := by
  rw [search_similar_defects_eq]
  have hsims : simsOf cexStore.defect_embeddings [(1 : ℝ), 0] (1/2) =
      [(0, 1)] := by
    show ((List.enum [[(1 : ℝ), 0]]).map
      (fun p => (p.1, cosine_similarity [(1 : ℝ), 0] p.2))).filter
      (fun p => decide ((1:ℝ)/2 ≤ p.2)) = [(0, 1)]
    rw [show List.enum [[(1 : ℝ), 0]] = [(0, [(1 : ℝ), 0])] from rfl]
    rw [List.map_cons, List.map_nil, cosine_e1_self]
    rw [List.filter_cons]
    norm_num
  rw [hsims]
  rw [show sortDesc [((0:ℕ), (1:ℝ))] = [(0, 1)] from rfl]
  rw [List.take_of_length_le (by simpa using hn)]
  rw [List.map_cons, List.map_nil]
  rw [show buildDefectResult cexStore (0, 1) =
    ⟨"D1", pyRound1 ((1:ℝ) * 100), cexMeta, "gateway doc"⟩ from rfl]
  rw [pyRound1_one_hundred]
  rfl

/-- C2 counterexample: on a store holding one defect with embedding
[1, 0], searching with the same query vector returns similarity 100.0 —
outside [0, 1]. -/
theorem similarity_in_unit_interval_cex :
    (cexStore.search_similar_defects [(1 : ℝ), 0] 5 (1/2)).map
      DefectResult.similarity = [100] ∧
    ¬ (∀ r ∈ cexStore.search_similar_defects [(1 : ℝ), 0] 5 (1/2),
      0 ≤ r.similarity ∧ r.similarity ≤ 1) := by
  have h := cexStore_search 5 (by norm_num)
  constructor
  · rw [h]; rfl
  · intro hall
    have := (hall cexResult (by rw [h]; simp)).2
    rw [show cexResult.similarity = 100 from rfl] at this
    norm_num at this

/-! ## C4: chunk counts of the text splitter -/

theorem chunkLoop_nil (c s : ℕ) : chunkLoop c s [] = [] := by
  simp only [chunkLoop]

theorem chunkLoop_cons (w : String) (ws : List String) (c s : ℕ) :
    chunkLoop c (s + 1) (w :: ws) =
      (if ((w :: ws).take c).isEmpty then [] else
        [" ".intercalate ((w :: ws).take c)]) ++
      chunkLoop c (s + 1) ((w :: ws).drop (s + 1)) := by
  simp only [chunkLoop]

theorem chunkLoop_length_500 : ∀ ws : List String, ws ≠ [] →
    (chunkLoop 500 450 ws).length = (ws.length + 449) / 450
  | [], h => absurd rfl h
  | w :: ws, _ => by
    rw [show (450 : ℕ) = 449 + 1 from rfl, chunkLoop_cons,
      show (449 : ℕ) + 1 = 450 from rfl]
    rw [if_neg (by simp)]
    by_cases h : (w :: ws).length ≤ 450
    · rw [List.drop_eq_nil_of_le h, chunkLoop_nil]
      simp only [List.append_nil, List.length_cons, List.length_nil] at h ⊢
      omega
    · have hlen : ((w :: ws).drop 450).length = (w :: ws).length - 450 :=
        List.length_drop _ _
      have hne : (w :: ws).drop 450 ≠ [] := by
        intro hnil
        rw [hnil] at hlen
        simp only [List.length_nil] at hlen
        omega
      rw [List.length_append,
        chunkLoop_length_500 ((w :: ws).drop 450) hne, hlen]
      simp only [List.length_cons, List.length_nil] at h ⊢
      omega
termination_by ws => ws.length
decreasing_by simp [List.length_drop]; omega

theorem chunkLoop_window_500 : ∀ (ws : List String), ws ≠ [] → ∀ k : ℕ,
    (chunkLoop 500 450 ws)[k]? =
      if (ws.drop (450 * k)).isEmpty then none
      else some (" ".intercalate ((ws.drop (450 * k)).take 500))
  | [], h, _ => absurd rfl h
  | w :: ws, _, k => by
    rw [show (450 : ℕ) = 449 + 1 from rfl, chunkLoop_cons,
      show (449 : ℕ) + 1 = 450 from rfl]
    rw [if_neg (by simp)]
    match k with
    | 0 => simp
    | k + 1 =>
      rw [List.singleton_append, List.getElem?_cons_succ]
      by_cases h : (w :: ws).drop 450 = []
      · rw [h, chunkLoop_nil]
        have hdrop : (w :: ws).drop (450 * (k + 1)) = [] := by
          apply List.drop_eq_nil_of_le
          have := congrArg List.length h
          simp only [List.length_drop, List.length_nil] at this
          have : (w :: ws).length ≤ 450 := by omega
          calc (w :: ws).length ≤ 450 := this
            _ ≤ 450 * (k + 1) := by omega
        rw [hdrop]
        simp
      · rw [chunkLoop_window_500 ((w :: ws).drop 450) h k]
        rw [List.drop_drop]
        rw [show (450 : ℕ) + 450 * k = 450 * (k + 1) by ring]
termination_by ws => ws.length
decreasing_by simp [List.length_drop]; omega

/-- C4 corrected: a nonblank text of N ≤ 500 words yields exactly the
one chunk [text]; for N > 500 the splitter yields ceil(N / 450) chunks
(not ceil((N - 50) / 450)), the k-th chunk being the 500-word window
starting 450·k words in. -/
theorem split_text_chunk_counts (text : String) (N : ℕ)
    (hN : (pySplit text).length = N) :
    (1 ≤ N → N ≤ 500 → split_text text 500 50 = [text]) ∧
    (500 < N → (split_text text 500 50).length = (N + 449) / 450 ∧
      ∀ k, 450 * k < N → (split_text text 500 50)[k]? =
        some (" ".intercalate (((pySplit text).drop (450 * k)).take 500)))
    := by
  constructor
  · intro h1 h500
    rw [split_text, if_pos (by omega)]
    rw [if_neg]
    intro hemp
    rw [List.isEmpty_iff] at hemp
    rw [hemp] at hN
    simp only [List.length_nil] at hN
    omega
  · intro h500
    have hne : pySplit text ≠ [] := by
      intro hnil
      rw [hnil] at hN
      simp only [List.length_nil] at hN
      omega
    have hsplit : split_text text 500 50 = chunkLoop 500 450 (pySplit text) := by
      rw [split_text, if_neg (by omega)]
    constructor
    · rw [hsplit, chunkLoop_length_500 _ hne, hN]
    · intro k hk
      rw [hsplit, chunkLoop_window_500 _ hne k]
      rw [if_neg]
      intro hemp
      rw [List.isEmpty_iff] at hemp
      have := congrArg List.length hemp
      simp only [List.length_drop, List.length_nil, hN] at this
      omega

/-- Witness for the corrected C4 at the two-word text a b. -/
theorem split_text_chunk_counts_witness :
    (pySplit "a b").length = 2 ∧ split_text "a b" 500 50 = ["a b"] :=
  ⟨by decide,
   (split_text_chunk_counts "a b" 2 (by decide)).1 (by norm_num) (by norm_num)⟩

theorem wordsAux_replicate : ∀ n : ℕ,
    wordsAux ((List.replicate n ['w', ' ']).flatten ++ ['w']) [] =
      List.replicate (n + 1) "w"
  | 0 => by
    rw [show ((List.replicate 0 ['w', ' ']).flatten ++ ['w']) = ['w'] from rfl]
    rw [show wordsAux ['w'] [] = [String.mk ['w']] from rfl]
    rfl
  | n + 1 => by
    rw [List.replicate_succ, List.flatten_cons]
    rw [show (['w', ' '] ++ (List.replicate n ['w', ' ']).flatten) ++ ['w'] =
      'w' :: ' ' :: ((List.replicate n ['w', ' ']).flatten ++ ['w']) by simp]
    rw [show ∀ cs, wordsAux ('w' :: ' ' :: cs) [] =
      String.mk ['w'] :: wordsAux cs [] from fun cs => rfl]
    rw [wordsAux_replicate n]
    rfl

/-- C4 counterexample: the 901-word text yields 3 chunks while the
claimed formula ceil((N-50)/450) gives 2; and the empty text of 0 ≤ 500
words yields 0 chunks, not exactly one. -/
theorem split_text_formula_cex :
    (pySplit t901).length = 901 ∧
    (split_text t901 500 50).length = 3 ∧
    (901 - 50 + 449) / 450 = 2 ∧
    split_text "" 500 50 = [] := by
  have hwords : pySplit t901 = List.replicate 901 "w" := by
    rw [pySplit, t901]
    rw [show (String.mk ((List.replicate 900 ['w', ' ']).flatten ++
      ['w'])).data = (List.replicate 900 ['w', ' ']).flatten ++ ['w'] from rfl]
    exact wordsAux_replicate 900
  have hlen : (pySplit t901).length = 901 := by
    rw [hwords, List.length_replicate]
  refine ⟨hlen, ?_, by norm_num, by rfl⟩
  have hne : pySplit t901 ≠ [] := by
    intro h0
    rw [h0] at hlen
    simp only [List.length_nil] at hlen
    omega
  have hsp : split_text t901 500 50 = chunkLoop 500 450 (pySplit t901) := by
    rw [split_text, if_neg (by rw [hlen]; norm_num)]
  rw [hsp, chunkLoop_length_500 _ hne, hlen]

/-! ## C5, C6: the indexing policy -/

theorem isEmpty_eq_false_of_length_ne_zero {α : Type} (l : List α)
    (h : l.length ≠ 0) : l.isEmpty = false := by
  cases l
  · simp at h
  · rfl

theorem batched_length (embedB : List String → List (List ℝ))
    (hE : ∀ ts, (embedB ts).length = ts.length) :
    ∀ texts : List String, (batched embedB texts).length = texts.length
  | [] => by simp [batched]
  | x :: xs => by
    rw [batched, List.length_append, hE,
      batched_length embedB hE ((x :: xs).drop 256)]
    simp only [List.length_take, List.length_drop]
    omega
termination_by texts => texts.length
decreasing_by simp [List.length_drop]; omega

theorem add_defects_ids (store : VectorStore) (defects : List Row)
    (embeddings : List (List ℝ)) (h1 : defects.isEmpty = false)
    (h2 : embeddings.isEmpty = false) :
    (store.add_defects defects embeddings).defect_ids =
      defects.enum.map (fun p => defectIssueKey p.1 p.2) := by
  rw [VectorStore.add_defects, if_neg (by simp [h1, h2])]

theorem index_defects_unfold (embedB : List String → List (List ℝ))
    (store : VectorStore) (acc sit : List Row) (force : Bool) :
    index_defects embedB store acc sit force =
      if force = false ∧ 0 < store.defect_ids.length ∧
          ((acc.length + sit.length : ℕ) : ℚ) * (19/20) ≤
            (store.defect_ids.length : ℚ) then store
      else if (taggedRows acc sit).isEmpty then store
      else
        (if 0 < store.defect_ids.length then store.clear_defects
         else store).add_defects (taggedRows acc sit)
          (batched embedB ((taggedRows acc sit).map create_defect_text)) :=
  rfl

/-- C5 corrected: with force_reindex = true and a non-empty combined row
set (and an embedding provider returning one vector per text), the defect
corpus afterwards holds exactly one record per input row — its ids are
derived purely from the input rows, replacing any prior state — so the
count equals the row count.  (The empty-row case instead returns with the
prior corpus untouched; see the counterexample.) -/
theorem index_defects_force_replaces (embedB : List String → List (List ℝ))
    (store : VectorStore) (acc sit : List Row)
    (hE : ∀ ts, (embedB ts).length = ts.length)
    (hne : acc ++ sit ≠ []) :
    (index_defects embedB store acc sit true).defect_ids =
      (taggedRows acc sit).enum.map (fun p => defectIssueKey p.1 p.2) ∧
    (index_defects embedB store acc sit true).defect_ids.length =
      acc.length + sit.length := by
  have htag : (taggedRows acc sit).length = acc.length + sit.length := by
    rw [taggedRows, List.length_append, List.length_map, List.length_map]
  have htotal : acc.length + sit.length ≠ 0 := by
    intro h0
    apply hne
    have hacc : acc = [] := List.eq_nil_of_length_eq_zero (by omega)
    have hsit : sit = [] := List.eq_nil_of_length_eq_zero (by omega)
    rw [hacc, hsit]
    rfl
  have htagne : (taggedRows acc sit).isEmpty = false :=
    isEmpty_eq_false_of_length_ne_zero _ (by rw [htag]; exact htotal)
  have hemb : (batched embedB
      ((taggedRows acc sit).map create_defect_text)).isEmpty = false :=
    isEmpty_eq_false_of_length_ne_zero _
      (by rw [batched_length embedB hE, List.length_map, htag]; exact htotal)
  have hids : (index_defects embedB store acc sit true).defect_ids =
      (taggedRows acc sit).enum.map (fun p => defectIssueKey p.1 p.2) := by
    rw [index_defects_unfold, if_neg (by simp), if_neg (by simp [htagne])]
    exact add_defects_ids _ _ _ htagne hemb
  refine ⟨hids, ?_⟩
  rw [hids, List.length_map, List.enum_length, htag]

/-- Witness for the corrected C5: one ACC row, forced reindex over a
non-empty prior store. -/
theorem index_defects_force_replaces_witness :
    (∀ ts : List String, ((ts.map (fun _ => [(0:ℝ)]))).length = ts.length) ∧
    ([[("Issue key", "A")]] ++ [] : List Row) ≠ [] ∧
    (index_defects (fun ts => ts.map (fun _ => [(0:ℝ)])) cexStore
      [[("Issue key", "A")]] [] true).defect_ids.length = 1 := by
  have hE : ∀ ts : List String, ((ts.map (fun _ => [(0:ℝ)]))).length = ts.length :=
    fun ts => List.length_map _ _
  have hne : ([[("Issue key", "A")]] ++ [] : List Row) ≠ [] := by simp
  exact ⟨hE, hne,
    (index_defects_force_replaces (fun ts => ts.map (fun _ => [(0:ℝ)]))
      cexStore [[("Issue key", "A")]] [] hE hne).2⟩

/-- C5 counterexample: with zero input rows and force_reindex = true the
call returns before clearing, so a non-empty prior corpus survives and
the count does not equal len(rows) = 0. -/
theorem index_defects_force_empty_cex :
    index_defects (fun ts => ts.map (fun _ => [(0:ℝ)])) cexStore [] [] true
      = cexStore ∧ cexStore.defect_ids.length = 1 := by
  constructor
  · rw [index_defects_unfold, if_neg (by simp), if_pos (by rfl)]
  · rfl

/-- C6 confirmed: with force_reindex = false and a cached count at least
0.95 of the incoming row count, index_defects leaves the whole store —
in particular the defect corpus (ids, vectors, metadata, texts) —
unchanged. -/
theorem index_defects_cache_skip (embedB : List String → List (List ℝ))
    (store : VectorStore) (acc sit : List Row)
    (h : ((acc.length + sit.length : ℕ) : ℚ) * (19/20) ≤
      (store.defect_ids.length : ℚ)) :
    index_defects embedB store acc sit false = store := by
  rw [index_defects_unfold]
  by_cases hc : 0 < store.defect_ids.length
  · rw [if_pos ⟨rfl, hc, h⟩]
  · have h0 : store.defect_ids.length = 0 := by omega
    have htot : acc.length + sit.length = 0 := by
      rw [h0] at h
      by_contra hpos
      have h1 : 1 ≤ ((acc.length + sit.length : ℕ) : ℚ) := by
        exact_mod_cast Nat.one_le_iff_ne_zero.mpr hpos
      push_cast at h h1
      linarith
    have hacc : acc = [] := List.eq_nil_of_length_eq_zero (by omega)
    have hsit : sit = [] := List.eq_nil_of_length_eq_zero (by omega)
    rw [if_neg (by rw [h0]; simp), if_pos (by rw [hacc, hsit]; rfl)]

/-- Witness for C6: one row against a store already holding one defect,
1 >= 0.95 * 1. -/
theorem index_defects_cache_skip_witness :
    ((([[("Issue key", "A")]] : List Row).length + ([] : List Row).length :
      ℕ) : ℚ) * (19/20) ≤ (cexStore.defect_ids.length : ℚ) ∧
    index_defects (fun ts => ts.map (fun _ => [(0:ℝ)])) cexStore
      [[("Issue key", "A")]] [] false = cexStore := by
  have h : ((([[("Issue key", "A")]] : List Row).length +
      ([] : List Row).length : ℕ) : ℚ) * (19/20) ≤
      (cexStore.defect_ids.length : ℚ) := by
    norm_num [cexStore]
  exact ⟨h, index_defects_cache_skip _ cexStore _ _ h⟩

/-! ## C9: uniqueness of stored ids -/

/-- C9 corrected: the add operations do not deduplicate — after an add
the stored ids are exactly those derived from the input rows, so they
are unique exactly when the derived ids are pairwise distinct (and, for
the empty-input no-op branch, when the prior ids already were). -/
theorem add_ids_nodup (store : VectorStore) (defects documents : List Row)
    (embs1 embs2 : List (List ℝ))
    (hd : store.defect_ids.Nodup) (hdoc : store.document_ids.Nodup)
    (h1 : ((defects.enum.map (fun p => defectIssueKey p.1 p.2))).Nodup)
    (h2 : ((documents.enum.map (fun p => documentChunkId p.1 p.2))).Nodup) :
    (store.add_defects defects embs1).defect_ids.Nodup ∧
    (store.add_documents documents embs2).document_ids.Nodup := by
  constructor
  · rw [VectorStore.add_defects]
    split_ifs
    · exact hd
    · exact h1
  · rw [VectorStore.add_documents]
    split_ifs
    · exact hdoc
    · exact h2

/-- Witness for the corrected C9 on singleton inputs with distinct ids. -/
theorem add_ids_nodup_witness :
    emptyStore.defect_ids.Nodup ∧ emptyStore.document_ids.Nodup ∧
    ((([[("Issue key", "A")]] : List Row).enum.map
      (fun p => defectIssueKey p.1 p.2))).Nodup ∧
    ((([[("id", "c0")]] : List Row).enum.map
      (fun p => documentChunkId p.1 p.2))).Nodup ∧
    ((emptyStore.add_defects [[("Issue key", "A")]] [[(0:ℝ)]]).defect_ids.Nodup ∧
    (emptyStore.add_documents [[("id", "c0")]] [[(0:ℝ)]]).document_ids.Nodup) := by
  refine ⟨by decide, by decide, by decide, by decide, ?_⟩
  exact add_ids_nodup emptyStore [[("Issue key", "A")]] [[("id", "c0")]]
    [[(0:ℝ)]] [[(0:ℝ)]] (by decide) (by decide) (by decide) (by decide)

/-- C9 counterexample: adding two rows that share the issue key A leaves
the defect corpus with the duplicate id list [A, A]. -/
theorem add_defects_duplicate_ids_cex :
    (emptyStore.add_defects [[("Issue key", "A")], [("Issue key", "A")]]
      [[(0:ℝ)], [(0:ℝ)]]).defect_ids = ["A", "A"] ∧
    ¬ (emptyStore.add_defects [[("Issue key", "A")], [("Issue key", "A")]]
      [[(0:ℝ)], [(0:ℝ)]]).defect_ids.Nodup := by
  have h : (emptyStore.add_defects [[("Issue key", "A")], [("Issue key", "A")]]
      [[(0:ℝ)], [(0:ℝ)]]).defect_ids = ["A", "A"] := by
    rw [add_defects_ids _ _ _ (by rfl) (by rfl)]
    rfl
  refine ⟨h, ?_⟩
  rw [h]
  decide

/-! ## C8: get_resolved_similar and the resolved predicate -/

theorem collectLoop_eq_filter_take (n : ℕ) :
    ∀ (l acc : List DefectResult), acc.length < n →
      collectLoop n acc l = acc ++ (l.filter isResolvedNarrow).take (n - acc.length)
  | [], acc, _ => by simp [collectLoop]
  | s :: ss, acc, hlt => by
    rw [collectLoop, List.filter_cons]
    by_cases hp : isResolvedNarrow s
    · rw [if_pos hp, if_pos hp]
      by_cases hfull : n ≤ (acc ++ [s]).length
      · rw [if_pos hfull]
        have hlen : (acc ++ [s]).length = acc.length + 1 := by simp
        have hn1 : n - acc.length = 1 := by omega
        rw [hn1]
        simp
      · rw [if_neg hfull]
        have hlen : (acc ++ [s]).length = acc.length + 1 := by simp
        rw [collectLoop_eq_filter_take n ss (acc ++ [s]) (by omega)]
        have hn1 : n - acc.length = (n - (acc ++ [s]).length) + 1 := by
          simp only [hlen]; omega
        rw [hn1, List.take_succ_cons, hlen]
        simp
    · rw [if_neg hp, if_neg hp]
      exact collectLoop_eq_filter_take n ss acc hlt

theorem isResolvedNarrow_implies (s : DefectResult)
    (h : isResolvedNarrow s = true) : is_resolved s = true := by
  rw [isResolvedNarrow, Bool.or_eq_true, List.any_eq_true,
    List.any_eq_true] at h
  rw [is_resolved, Bool.or_eq_true, Bool.or_eq_true, List.any_eq_true,
    List.any_eq_true]
  rcases h with ⟨kw, hkw, hc⟩ | ⟨kw, hkw, hc⟩
  · refine Or.inl (Or.inl ⟨kw, ?_, hc⟩)
    simp only [resolvedKeywordsNarrow, List.mem_cons, List.not_mem_nil,
      or_false] at hkw
    rcases hkw with rfl | rfl | rfl | rfl | rfl <;> simp [resolved_keywords]
  · refine Or.inl (Or.inr ⟨kw, ?_, hc⟩)
    simp only [resolvedKeywordsNarrow, List.mem_cons, List.not_mem_nil,
      or_false] at hkw
    rcases hkw with rfl | rfl | rfl | rfl | rfl <;> simp [resolved_keywords]

/-- C8 corrected: get_resolved_similar requests 3n candidates, but
filters with the five status/resolution keywords of line 199 only — not
the suggester's paragraph-4.5 predicate: the complete keyword and the
fix-description clause play no part (see the counterexample).  It keeps
the first n candidates passing that narrower test; each of them also
satisfies the paragraph-4.5 predicate, which is strictly weaker. -/
theorem get_resolved_similar_spec (embed : String → List ℝ)
    (store : VectorStore) (defect : Row) (n : ℕ) (minSim : ℝ)
    (hn : 1 ≤ n) :
    get_resolved_similar embed store defect n minSim =
      ((find_similar embed store defect (n * 3) minSim true).filter
        isResolvedNarrow).take n ∧
    ∀ s ∈ get_resolved_similar embed store defect n minSim,
      isResolvedNarrow s = true ∧ is_resolved s = true := by
  have heq : get_resolved_similar embed store defect n minSim =
      ((find_similar embed store defect (n * 3) minSim true).filter
        isResolvedNarrow).take n := by
    rw [get_resolved_similar,
      collectLoop_eq_filter_take n _ [] (by simpa using hn)]
    simp
  refine ⟨heq, ?_⟩
  intro s hs
  rw [heq] at hs
  have hmem := List.mem_of_mem_take hs
  have hp := List.of_mem_filter hmem
  exact ⟨hp, isResolvedNarrow_implies s hp⟩

/-- Witness for the corrected C8 on the concrete one-defect store. -/
theorem get_resolved_similar_spec_witness :
    1 ≤ 5 ∧
    (get_resolved_similar (fun _ => [(1:ℝ), 0]) cexStore
        [("Issue key", "QX")] 5 (1/2) =
      ((find_similar (fun _ => [(1:ℝ), 0]) cexStore [("Issue key", "QX")]
        (5 * 3) (1/2) true).filter isResolvedNarrow).take 5 ∧
    ∀ s ∈ get_resolved_similar (fun _ => [(1:ℝ), 0]) cexStore
        [("Issue key", "QX")] 5 (1/2),
      isResolvedNarrow s = true ∧ is_resolved s = true) :=
  ⟨by norm_num, get_resolved_similar_spec (fun _ => [(1:ℝ), 0]) cexStore
    [("Issue key", "QX")] 5 (1/2) (by norm_num)⟩

theorem cex_find_similar :
    find_similar (fun _ => [(1:ℝ), 0]) cexStore [("Issue key", "QX")]
      15 (1/2) true = [cexResult] := by
  rw [find_similar]
  simp only [if_true]
  rw [show (15 : ℕ) + 1 = 16 from rfl, cexStore_search 16 (by norm_num)]
  rw [List.filter_cons]
  rw [show (!(cexResult.issue_key ==
    rowGetD [("Issue key", "QX")] "Issue key" "")) = true from rfl]
  rfl

/-- C8 counterexample: the stored defect has status Complete and a long
fix description, so it satisfies the paragraph-4.5 resolved predicate,
it is among the requested candidates, fewer than n results were
collected — yet get_resolved_similar returns nothing, because its
keyword list lacks complete and it never reads the fix description. -/
theorem get_resolved_similar_narrow_cex :
    find_similar (fun _ => [(1:ℝ), 0]) cexStore [("Issue key", "QX")]
      15 (1/2) true = [cexResult] ∧
    is_resolved cexResult = true ∧
    get_resolved_similar (fun _ => [(1:ℝ), 0]) cexStore
      [("Issue key", "QX")] 5 (1/2) = [] := by
  refine ⟨cex_find_similar, by decide, ?_⟩
  rw [get_resolved_similar]
  rw [show (5 : ℕ) * 3 = 15 from rfl, cex_find_similar]
  rw [collectLoop, if_neg (by decide)]
  rfl

/-! ## C7: root-cause derivation -/

theorem causeCounts_eq_foldl (cands : List DefectResult) :
    causeCounts cands = cands.foldl (fun ctr d => innerStep d ctr) [] := rfl

theorem lookupCount_bump_self (l : List (String × ℕ)) (k : String) :
    lookupCount (bumpCount l k) k = lookupCount l k + 1 := by
  induction l with
  | nil => simp [bumpCount, lookupCount, List.lookup]
  | cons q rest ih =>
    by_cases h : q.1 = k
    · rw [show bumpCount (q :: rest) k = (q.1, q.2 + 1) :: rest by
        rw [show (q : String × ℕ) = (q.1, q.2) from rfl, bumpCount, if_pos h]]
      simp [lookupCount, List.lookup, h]
    · rw [show bumpCount (q :: rest) k = (q.1, q.2) :: bumpCount rest k by
        rw [show (q : String × ℕ) = (q.1, q.2) from rfl, bumpCount, if_neg h]]
      have hbeq : (k == q.1) = false := by
        simp [beq_iff_eq]
        exact fun he => h he.symm
      simp only [lookupCount, List.lookup, hbeq] at *
      exact ih

theorem lookupCount_bump_other (l : List (String × ℕ)) (k k' : String)
    (hne : k' ≠ k) :
    lookupCount (bumpCount l k) k' = lookupCount l k' := by
  induction l with
  | nil =>
    simp only [bumpCount, lookupCount, List.lookup,
      show (k' == k) = false by simp [beq_iff_eq]; exact hne]
  | cons q rest ih =>
    by_cases h : q.1 = k
    · rw [show bumpCount (q :: rest) k = (q.1, q.2 + 1) :: rest by
        rw [show (q : String × ℕ) = (q.1, q.2) from rfl, bumpCount, if_pos h]]
      have hbeq : (k' == q.1) = false := by
        simp [beq_iff_eq]
        rw [h]
        exact hne
      simp [lookupCount, List.lookup, hbeq]
    · rw [show bumpCount (q :: rest) k = (q.1, q.2) :: bumpCount rest k by
        rw [show (q : String × ℕ) = (q.1, q.2) from rfl, bumpCount, if_neg h]]
      by_cases h2 : k' = q.1
      · simp [lookupCount, List.lookup, h2]
      · have hbeq : (k' == q.1) = false := by simp [beq_iff_eq]; exact h2
        simp only [lookupCount, List.lookup, hbeq] at *
        exact ih

theorem bump_keys_mem (l : List (String × ℕ)) (k k' : String) :
    k' ∈ (bumpCount l k).map Prod.fst ↔
      k' ∈ l.map Prod.fst ∨ k' = k := by
  induction l with
  | nil => simp [bumpCount]
  | cons q rest ih =>
    by_cases h : q.1 = k
    · rw [show bumpCount (q :: rest) k = (q.1, q.2 + 1) :: rest by
        rw [show (q : String × ℕ) = (q.1, q.2) from rfl, bumpCount, if_pos h]]
      simp only [List.map_cons, List.mem_cons]
      constructor
      · rintro (rfl | hm)
        · exact Or.inl (Or.inl rfl)
        · exact Or.inl (Or.inr hm)
      · rintro ((rfl | hm) | rfl)
        · exact Or.inl rfl
        · exact Or.inr hm
        · exact Or.inl h.symm
    · rw [show bumpCount (q :: rest) k = (q.1, q.2) :: bumpCount rest k by
        rw [show (q : String × ℕ) = (q.1, q.2) from rfl, bumpCount, if_neg h]]
      simp only [List.map_cons, List.mem_cons, ih]
      tauto

theorem bump_keys_nodup (l : List (String × ℕ)) (k : String)
    (h : (l.map Prod.fst).Nodup) : ((bumpCount l k).map Prod.fst).Nodup := by
  induction l with
  | nil => simp [bumpCount]
  | cons q rest ih =>
    rcases List.pairwise_cons.mp h with ⟨hq, hrest⟩
    by_cases hk : q.1 = k
    · rw [show bumpCount (q :: rest) k = (q.1, q.2 + 1) :: rest by
        rw [show (q : String × ℕ) = (q.1, q.2) from rfl, bumpCount, if_pos hk]]
      exact h
    · rw [show bumpCount (q :: rest) k = (q.1, q.2) :: bumpCount rest k by
        rw [show (q : String × ℕ) = (q.1, q.2) from rfl, bumpCount, if_neg hk]]
      rw [List.map_cons, List.nodup_cons]
      refine ⟨?_, ih hrest⟩
      intro hmem
      rcases (bump_keys_mem rest k q.1).mp hmem with hm | he
      · rcases List.mem_map.mp hm with ⟨x, hx, hx1⟩
        exact hq _ (List.mem_map_of_mem _ hx) hx1.symm
      · exact hk he

theorem entry_eq_lookup (l : List (String × ℕ))
    (h : (l.map Prod.fst).Nodup) :
    ∀ p ∈ l, p.2 = lookupCount l p.1 := by
  induction l with
  | nil => intro p hp; cases hp
  | cons q rest ih =>
    rcases List.pairwise_cons.mp h with ⟨hq, hrest⟩
    intro p hp
    rcases List.mem_cons.mp hp with rfl | hp'
    · simp [lookupCount, List.lookup]
    · have hne : p.1 ≠ q.1 := by
        intro he
        exact hq _ (List.mem_map_of_mem _ hp') he.symm
      have hbeq : (p.1 == q.1) = false := by simp [beq_iff_eq]; exact hne
      simp only [lookupCount, List.lookup, hbeq]
      exact ih hrest p hp'

theorem lookup_none_of_not_mem (l : List (String × ℕ)) (k : String)
    (h : k ∉ l.map Prod.fst) : lookupCount l k = 0 := by
  induction l with
  | nil => rfl
  | cons q rest ih =>
    simp only [List.map_cons, List.mem_cons] at h
    push_neg at h
    have hbeq : (k == q.1) = false := by simp [beq_iff_eq]; exact h.1
    simp only [lookupCount, List.lookup, hbeq]
    exact ih h.2

theorem innerFold_lookup_notmem (d : DefectResult) (cause : String) :
    ∀ (ps : List (String × String)) (ctr : List (String × ℕ)),
      cause ∉ ps.map Prod.snd →
      lookupCount (ps.foldl (fun ctr p =>
        if strContains (candidateContent d) p.1 then bumpCount ctr p.2
        else ctr) ctr) cause = lookupCount ctr cause
  | [], ctr, _ => rfl
  | p :: rest, ctr, h => by
    simp only [List.map_cons, List.mem_cons] at h
    push_neg at h
    rw [List.foldl_cons, innerFold_lookup_notmem d cause rest _ h.2]
    by_cases hc : strContains (candidateContent d) p.1
    · rw [if_pos hc, lookupCount_bump_other _ _ _ h.1]
    · rw [if_neg hc]

theorem innerFold_lookup (d : DefectResult) (kw cause : String) :
    ∀ (ps : List (String × String)) (ctr : List (String × ℕ)),
      (ps.map Prod.snd).Nodup → (kw, cause) ∈ ps →
      lookupCount (ps.foldl (fun ctr p =>
        if strContains (candidateContent d) p.1 then bumpCount ctr p.2
        else ctr) ctr) cause =
      lookupCount ctr cause +
        (if strContains (candidateContent d) kw then 1 else 0)
  | [], _, _, hm => absurd hm (List.not_mem_nil _)
  | p :: rest, ctr, hnd, hm => by
    rcases List.pairwise_cons.mp hnd with ⟨hp, hrest⟩
    rcases List.mem_cons.mp hm with he | hm'
    · have hp2 : p.2 = cause := by rw [← he]
      have hp1 : p.1 = kw := by rw [← he]
      rw [List.foldl_cons]
      have hnotin : cause ∉ rest.map Prod.snd := by
        intro hmem
        rcases List.mem_map.mp hmem with ⟨x, hx, hx2⟩
        exact hp _ (List.mem_map_of_mem _ hx) (by rw [hx2, hp2])
      rw [innerFold_lookup_notmem d cause rest _ hnotin, hp1, hp2]
      by_cases hc : strContains (candidateContent d) kw
      · rw [if_pos hc, if_pos hc, lookupCount_bump_self]
      · rw [if_neg hc, if_neg hc]
        omega
    · have hne : cause ≠ p.2 := by
        intro he
        exact hp _ (List.mem_map_of_mem _ hm') he.symm
      rw [List.foldl_cons, innerFold_lookup d kw cause rest _ hrest hm']
      by_cases hc : strContains (candidateContent d) p.1
      · rw [if_pos hc, lookupCount_bump_other _ _ _ hne]
      · rw [if_neg hc]

theorem matchCount_cons (kw : String) (d : DefectResult)
    (ds : List DefectResult) :
    matchCount kw (d :: ds) =
      (if strContains (candidateContent d) kw then 1 else 0) +
        matchCount kw ds := by
  rw [matchCount, matchCount, List.filter_cons]
  by_cases hc : strContains (candidateContent d) kw
  · rw [if_pos (by simp [hc]), if_pos hc, List.length_cons]
    omega
  · rw [if_neg (by simp [hc]), if_neg hc]
    omega

theorem causeCounts_lookup (kw cause : String)
    (hm : (kw, cause) ∈ cause_keywords) :
    ∀ (cands : List DefectResult) (ctr : List (String × ℕ)),
      lookupCount (cands.foldl (fun ctr d => innerStep d ctr) ctr) cause =
        lookupCount ctr cause + matchCount kw cands
  | [], ctr => by simp [matchCount]
  | d :: ds, ctr => by
    rw [List.foldl_cons, causeCounts_lookup kw cause hm ds (innerStep d ctr)]
    rw [show innerStep d ctr = cause_keywords.foldl (fun ctr p =>
      if strContains (candidateContent d) p.1 then bumpCount ctr p.2
      else ctr) ctr from rfl]
    rw [innerFold_lookup d kw cause cause_keywords ctr
      (by decide) hm]
    rw [matchCount_cons]
    omega

theorem innerFold_keys (d : DefectResult) :
    ∀ (ps : List (String × String)) (ctr : List (String × ℕ)),
      ∀ p ∈ ps.foldl (fun ctr p =>
        if strContains (candidateContent d) p.1 then bumpCount ctr p.2
        else ctr) ctr,
      p.1 ∈ ctr.map Prod.fst ∨ p.1 ∈ ps.map Prod.snd
  | [], ctr, p, hp => Or.inl (List.mem_map_of_mem _ hp)
  | q :: rest, ctr, p, hp => by
    rw [List.foldl_cons] at hp
    rcases innerFold_keys d rest _ p hp with hin | hin
    · by_cases hc : strContains (candidateContent d) q.1
      · rw [if_pos hc] at hin
        rcases (bump_keys_mem ctr q.2 p.1).mp hin with hm | he
        · exact Or.inl hm
        · exact Or.inr (by simp [he])
      · rw [if_neg hc] at hin
        exact Or.inl hin
    · exact Or.inr (by simp [hin])

theorem innerFold_keys_nodup (d : DefectResult) :
    ∀ (ps : List (String × String)) (ctr : List (String × ℕ)),
      (ctr.map Prod.fst).Nodup →
      ((ps.foldl (fun ctr p =>
        if strContains (candidateContent d) p.1 then bumpCount ctr p.2
        else ctr) ctr).map Prod.fst).Nodup
  | [], _, h => h
  | q :: rest, ctr, h => by
    rw [List.foldl_cons]
    apply innerFold_keys_nodup d rest
    by_cases hc : strContains (candidateContent d) q.1
    · rw [if_pos hc]
      exact bump_keys_nodup ctr q.2 h
    · rw [if_neg hc]
      exact h

theorem causeCounts_keys (cands : List DefectResult) :
    ∀ ctr : List (String × ℕ),
      (∀ p ∈ ctr, p.1 ∈ cause_keywords.map Prod.snd) →
      ∀ p ∈ cands.foldl (fun ctr d => innerStep d ctr) ctr,
        p.1 ∈ cause_keywords.map Prod.snd := by
  induction cands with
  | nil => intro ctr h p hp; exact h p hp
  | cons d ds ih =>
    intro ctr h p hp
    rw [List.foldl_cons] at hp
    refine ih (innerStep d ctr) ?_ p hp
    intro q hq
    rcases innerFold_keys d cause_keywords ctr q hq with hin | hin
    · rcases List.mem_map.mp hin with ⟨x, hx, hx1⟩
      rw [← hx1]
      exact h x hx
    · exact hin

theorem causeCounts_keys_nodup (cands : List DefectResult) :
    ∀ ctr : List (String × ℕ), (ctr.map Prod.fst).Nodup →
      ((cands.foldl (fun ctr d => innerStep d ctr) ctr).map Prod.fst).Nodup := by
  induction cands with
  | nil => intro ctr h; exact h
  | cons d ds ih =>
    intro ctr h
    rw [List.foldl_cons]
    exact ih (innerStep d ctr) (innerFold_keys_nodup d cause_keywords ctr h)

theorem mostCommon1_go (l : List (String × ℕ)) (b : String × ℕ) :
    ∃ top, l.foldl (fun best p =>
        match best with
        | none => some p
        | some b => if b.2 < p.2 then some p else some b) (some b) =
        some top ∧
      (top = b ∨ top ∈ l) ∧ b.2 ≤ top.2 ∧ ∀ q ∈ l, q.2 ≤ top.2 := by
  induction l generalizing b with
  | nil => exact ⟨b, rfl, Or.inl rfl, le_refl _, by simp⟩
  | cons q rest ih =>
    by_cases h : b.2 < q.2
    · rcases ih q with ⟨top, heq, hmem, hle, hall⟩
      refine ⟨top, ?_, ?_, le_trans (le_of_lt h) hle, ?_⟩
      · rw [List.foldl_cons]
        simpa [if_pos h] using heq
      · rcases hmem with rfl | hm
        · exact Or.inr (by simp)
        · exact Or.inr (List.mem_cons_of_mem _ hm)
      · intro x hx
        rcases List.mem_cons.mp hx with rfl | hx'
        · exact le_trans hle (le_refl _)
        · exact hall x hx'
    · rcases ih b with ⟨top, heq, hmem, hle, hall⟩
      refine ⟨top, ?_, ?_, hle, ?_⟩
      · rw [List.foldl_cons]
        simpa [if_neg h] using heq
      · rcases hmem with rfl | hm
        · exact Or.inl rfl
        · exact Or.inr (List.mem_cons_of_mem _ hm)
      · intro x hx
        rcases List.mem_cons.mp hx with rfl | hx'
        · exact le_trans (le_of_not_lt h) hle
        · exact hall x hx'

theorem mostCommon1_spec (counts : List (String × ℕ))
    (hne : counts ≠ []) :
    ∃ top ∈ counts, mostCommon1 counts = some top ∧
      ∀ q ∈ counts, q.2 ≤ top.2 := by
  match counts, hne with
  | c :: rest, _ =>
    rcases mostCommon1_go rest c with ⟨top, heq, hmem, hle, hall⟩
    refine ⟨top, ?_, ?_, ?_⟩
    · rcases hmem with rfl | hm
      · simp
      · exact List.mem_cons_of_mem _ hm
    · rw [mostCommon1, List.foldl_cons]
      exact heq
    · intro q hq
      rcases List.mem_cons.mp hq with rfl | hq'
      · exact hle
      · exact hall q hq'

theorem lookup_pos_mem (l : List (String × ℕ)) (k : String)
    (h : 0 < lookupCount l k) :
    ∃ q ∈ l, q.1 = k ∧ q.2 = lookupCount l k := by
  induction l with
  | nil => simp [lookupCount, List.lookup] at h
  | cons q rest ih =>
    by_cases he : k = q.1
    · refine ⟨q, by simp, he.symm, ?_⟩
      have hbeq : (k == q.1) = true := by simp [beq_iff_eq]; exact he
      simp [lookupCount, List.lookup, hbeq]
    · have hbeq : (k == q.1) = false := by simp [beq_iff_eq]; exact he
      simp only [lookupCount, List.lookup, hbeq] at h ⊢
      rcases ih h with ⟨x, hx, h1, h2⟩
      exact ⟨x, List.mem_cons_of_mem _ hx, h1, h2⟩

theorem pyRoundQ_le (q : ℚ) (B : ℤ) (h : q ≤ B) : pyRound q ≤ B := by
  have hfB : ⌊q⌋ ≤ B := by
    have := Int.floor_le_floor h
    rwa [Int.floor_intCast] at this
  have hfy : (⌊q⌋ : ℚ) ≤ q := Int.floor_le q
  rw [pyRound]
  split_ifs with h1 h2 h3
  · exact hfB
  · have hlt : (⌊q⌋ : ℚ) < (B : ℚ) := by linarith
    have : ⌊q⌋ < B := by exact_mod_cast hlt
    omega
  · have heq : q - ⌊q⌋ = 1/2 := le_antisymm (le_of_not_lt h2) (le_of_not_lt h1)
    have hlt : (⌊q⌋ : ℚ) < (B : ℚ) := by linarith
    have : ⌊q⌋ < B := by exact_mod_cast hlt
    omega
  · have heq : q - ⌊q⌋ = 1/2 := le_antisymm (le_of_not_lt h2) (le_of_not_lt h1)
    have hlt : (⌊q⌋ : ℚ) < (B : ℚ) := by linarith
    have : ⌊q⌋ < B := by exact_mod_cast hlt
    omega

/-- C7 confirmed: on any non-empty candidate list the engine emits
exactly one RootCause, and when some taxonomy keyword matches, the result
is a taxonomy label of maximal candidate-match count, its percentage is
round(matches / total_candidates * 100) (the source's min against 100
never bites) and its support count is the number of matching candidates. -/
theorem analyze_root_causes_spec (cands : List DefectResult)
    (hne : cands ≠ []) :
    (analyze_root_causes cands).length = 1 ∧
    ((∃ p ∈ cause_keywords, 0 < matchCount p.1 cands) →
      ∃ p ∈ cause_keywords,
        analyze_root_causes cands =
          [⟨p.2, pyRound ((matchCount p.1 cands : ℚ) /
            (cands.length : ℚ) * 100), matchCount p.1 cands⟩] ∧
        ∀ q ∈ cause_keywords, matchCount q.1 cands ≤ matchCount p.1 cands)
    := by
  constructor
  · rw [analyze_root_causes]
    split_ifs
    · cases mostCommon1 (causeCounts cands) <;> simp
    · simp
  · rintro ⟨p0, hp0, hpos0⟩
    have hkeysnd : (cause_keywords.map Prod.snd).Nodup := by decide
    have hlook : ∀ pr ∈ cause_keywords,
        lookupCount (causeCounts cands) pr.2 = matchCount pr.1 cands := by
      intro pr hpr
      rw [causeCounts_eq_foldl,
        causeCounts_lookup pr.1 pr.2 (by rwa [show ((pr.1, pr.2) :
          String × String) = pr from rfl]) cands [],
        show lookupCount [] pr.2 = 0 from rfl]
      omega
    have hlookpos : 0 < lookupCount (causeCounts cands) p0.2 := by
      rw [hlook p0 hp0]; exact hpos0
    rcases lookup_pos_mem _ _ hlookpos with ⟨e, he, _, _⟩
    have hcne : causeCounts cands ≠ [] := by
      intro h0
      rw [h0] at he
      cases he
    have htot : 0 < ((causeCounts cands).map Prod.snd).sum := by
      have hle : e.2 ≤ ((causeCounts cands).map Prod.snd).sum :=
        List.single_le_sum (fun x _ => Nat.zero_le x) _
          (List.mem_map_of_mem _ he)
      have hepos : 0 < e.2 := by omega
      omega
    rcases mostCommon1_spec _ hcne with ⟨top, htop, heq, hmax⟩
    have hkeys : top.1 ∈ cause_keywords.map Prod.snd :=
      causeCounts_keys cands [] (by simp) top
        (by rwa [← causeCounts_eq_foldl])
    rcases List.mem_map.mp hkeys with ⟨pr, hpr, hpr2⟩
    have hnodup : ((causeCounts cands).map Prod.fst).Nodup := by
      rw [causeCounts_eq_foldl]
      exact causeCounts_keys_nodup cands [] (by simp)
    have htop2 : top.2 = matchCount pr.1 cands := by
      rw [entry_eq_lookup _ hnodup top htop, ← hpr2, hlook pr hpr]
    have hNpos : 0 < cands.length := List.length_pos.mpr hne
    have hmc_le : matchCount pr.1 cands ≤ cands.length :=
      List.length_filter_le _ _
    have hratio : ((matchCount pr.1 cands : ℚ) / (cands.length : ℚ) * 100)
        ≤ (100 : ℤ) := by
      push_cast
      rw [div_mul_eq_mul_div, div_le_iff₀ (by exact_mod_cast hNpos)]
      have : (matchCount pr.1 cands : ℚ) ≤ (cands.length : ℚ) := by
        exact_mod_cast hmc_le
      nlinarith
    refine ⟨pr, hpr, ?_, ?_⟩
    · rw [analyze_root_causes, if_pos htot, heq]
      show [(⟨top.1,
        min (pyRound ((top.2 : ℚ) / (cands.length : ℚ) * 100)) 100,
        top.2⟩ : RootCause)] = _
      rw [htop2, ← hpr2, min_eq_left (pyRoundQ_le _ _ hratio)]
    · intro q hq
      rw [← hlook q hq]
      by_cases hz : 0 < lookupCount (causeCounts cands) q.2
      · rcases lookup_pos_mem _ _ hz with ⟨e2, he2, _, he2c⟩
        rw [← he2c]
        rw [htop2] at hmax
        exact hmax e2 he2
      · omega

/-- Witness for C7 at the three-candidate example (timeout twice,
validation once). -/
theorem analyze_root_causes_spec_witness :
    wCands ≠ [] ∧
    ((analyze_root_causes wCands).length = 1 ∧
    ((∃ p ∈ cause_keywords, 0 < matchCount p.1 wCands) →
      ∃ p ∈ cause_keywords,
        analyze_root_causes wCands =
          [⟨p.2, pyRound ((matchCount p.1 wCands : ℚ) /
            (wCands.length : ℚ) * 100), matchCount p.1 wCands⟩] ∧
        ∀ q ∈ cause_keywords, matchCount q.1 wCands ≤ matchCount p.1 wCands))
    :=
  ⟨by simp [wCands], analyze_root_causes_spec wCands (by simp [wCands])⟩

/-! ## C1: keyword fallback of the document search -/

/-- C1 (spec-modelled fallback): whenever the semantic document search
returns zero hits for a nonblank query, DocumentSearch.search returns the
keyword-containment matches, deduplicated by document — the function is
total, so no error reaches the caller. -/
theorem document_search_keyword_fallback (embed : String → List ℝ)
    (store : VectorStore) (query : String) (n : ℕ) (minSim : ℝ)
    (hq : (pySplit query).isEmpty = false)
    (h0 : store.search_documents (embed query) n minSim = []) :
    document_search embed store query n minSim =
      dedupByDocument (search_documents_by_keywords store query n) n := by
  rw [document_search, if_neg (by simp [hq]), h0]
  simp

/-- Witness for C1: a query whose semantic search over the empty
document corpus finds nothing. -/
theorem document_search_keyword_fallback_witness :
    (pySplit "kias").isEmpty = false ∧
    emptyStore.search_documents ((fun _ : String => [(0:ℝ)]) "kias") 3
      (1/2) = [] ∧
    document_search (fun _ : String => [(0:ℝ)]) emptyStore "kias" 3 (1/2) =
      dedupByDocument (search_documents_by_keywords emptyStore "kias" 3) 3
    := by
  have hq : (pySplit "kias").isEmpty = false := by decide
  have h0 : emptyStore.search_documents ((fun _ : String => [(0:ℝ)]) "kias")
      3 (1/2) = [] := by
    rw [VectorStore.search_documents]
    exact if_pos rfl
  exact ⟨hq, h0, document_search_keyword_fallback _ _ _ _ _ hq h0⟩

end GenAI
